import Mathlib

/-!
Verification of the run-orchestration and telemetry-extraction subsystem.

Shallow embedding of `evaluate_agent.py` (jeffgrover/llm-eval).

Modelling conventions:
* file contents and lines are `List Char` (ASCII fragment of Python's `str`);
* the `re` patterns used by the source are fixed and backtracking-free, so each
  is embedded as a deterministic scanner over `List Char`;
* `datetime` values parsed from `[YYYY-MM-DD HH:MM:SS]` stamps are embedded as
  proleptic-Gregorian epoch second counts (`Int`); a difference of two such
  values is an exact integer number of seconds, and Python's float sums of
  those integers are modelled by exact `Int` sums;
* subprocess interaction is embedded by passing the outcome of the operating
  system (exit code, launch error, captured output) as an explicit argument.
-/

/-! ## Character classes (ASCII fragment of Python's `\s`, `\d`, `isalnum`) -/

/-- ASCII whitespace accepted by Python's `\s` and `str.strip`. -/
def isPyWs (c : Char) : Bool :=
  c.toNat == 32 || c.toNat == 9 || c.toNat == 10 || c.toNat == 13 ||
    c.toNat == 11 || c.toNat == 12

/-- ASCII decimal digit, the `\d` of the source's regexes. -/
def isDigitC (c : Char) : Bool :=
  decide (48 ≤ c.toNat) && decide (c.toNat ≤ 57)

/-- ASCII letter or digit, Python's `str.isalnum` on ASCII input. -/
def isAlnumC (c : Char) : Bool :=
  isDigitC c || (decide (65 ≤ c.toNat) && decide (c.toNat ≤ 90)) ||
    (decide (97 ≤ c.toNat) && decide (c.toNat ≤ 122))

/-- Numeric value of a digit character. -/
def digitVal (c : Char) : Nat := c.toNat - 48

/-- Value of a digit string, most significant digit first (`int()` on the
regex group). -/
def digitsVal (ds : List Char) : Nat :=
  ds.foldl (fun a c => 10 * a + digitVal c) 0

/-- Substring test: Python's `pat in line` for nonempty `pat`. -/
def listContainsSub (pat : List Char) : List Char → Bool
  | [] => pat.isEmpty
  | c :: t => pat.isPrefixOf (c :: t) || listContainsSub pat t

/-- Python's `str.strip()` on a string with no interior surprises: drop
ASCII whitespace from both ends. -/
def pyStrip (l : List Char) : List Char :=
  ((l.dropWhile isPyWs).reverse.dropWhile isPyWs).reverse

/-- Python's `file.readlines()`: split the file content after each newline, keeping
the terminators; a trailing fragment without a newline is a final line. -/
def pyReadlines : List Char → List (List Char)
  | [] => []
  | c :: cs =>
    if c = '\n' then ['\n'] :: pyReadlines cs
    else
      match pyReadlines cs with
      | [] => [[c]]
      | l :: ls => (c :: l) :: ls

/-! ## `MetadataCollector.get_token_usage`

The source compiles
`"usage":\s*\{\s*"prompt_tokens":\s*(\d+),\s*"completion_tokens":\s*(\d+),\s*"total_tokens":\s*(\d+)\s*\}`
and sums the three groups over `findall`.  Every quantifier in that pattern is
followed by a token it can never match (`\s*` by a non-space, `\d+` by a
non-digit), so the regex is equivalent to the deterministic scanner below. -/

def usageLit : List Char := "\"usage\":".data
def quotedUsage : List Char := "\"usage\"".data
def lbraceLit : List Char := "\x7b".data
def rbraceLit : List Char := "\x7d".data
def commaLit : List Char := ",".data
def ptokLit : List Char := "\"prompt_tokens\":".data
def ctokLit : List Char := "\"completion_tokens\":".data
def ttokLit : List Char := "\"total_tokens\":".data

/-- Consume an expected literal token. -/
def expectLit (pat l : List Char) : Option (List Char) :=
  if pat.isPrefixOf l then some (l.drop pat.length) else none

/-- Consume `\s*` (maximal run, as the following token is never whitespace). -/
def skipWs (l : List Char) : List Char := l.dropWhile isPyWs

/-- Consume `(\d+)` (maximal run, as the following token is never a digit). -/
def parseDigits (l : List Char) : Option (Nat × List Char) :=
  let ds := l.takeWhile isDigitC
  if ds.isEmpty then none else some (digitsVal ds, l.dropWhile isDigitC)

/-- Attempt the usage-record pattern at the head of `l`; on success return the
three token counts and the remaining input. -/
def matchRecord (l : List Char) : Option ((Nat × Nat × Nat) × List Char) :=
  (expectLit usageLit l).bind fun l1 =>
  (expectLit lbraceLit (skipWs l1)).bind fun l2 =>
  (expectLit ptokLit (skipWs l2)).bind fun l3 =>
  (parseDigits (skipWs l3)).bind fun pl =>
  (expectLit commaLit pl.2).bind fun l5 =>
  (expectLit ctokLit (skipWs l5)).bind fun l6 =>
  (parseDigits (skipWs l6)).bind fun cl =>
  (expectLit commaLit cl.2).bind fun l8 =>
  (expectLit ttokLit (skipWs l8)).bind fun l9 =>
  (parseDigits (skipWs l9)).bind fun tl =>
  (expectLit rbraceLit (skipWs tl.2)).map fun l11 => ((pl.1, cl.1, tl.1), l11)

/-- Model of `re.findall`: scan left to right; emit each non-overlapping match and
resume after it, otherwise advance one character.  Fuelled so that the
definition is structurally recursive (the fuel is irrelevant once it is at
least the input length). -/
def findRecordsAux : Nat → List Char → List ((Nat × Nat × Nat))
  | 0, _ => []
  | fuel + 1, l =>
    match matchRecord l with
    | some (t, rest) => t :: findRecordsAux fuel rest
    | none =>
      match l with
      | [] => []
      | _ :: cs => findRecordsAux fuel cs

def findRecords (l : List Char) : List (Nat × Nat × Nat) :=
  findRecordsAux l.length l

/-- The running tally kept by `get_token_usage`. -/
structure Usage where
  prompt_tokens : Nat
  completion_tokens : Nat
  total_tokens : Nat
deriving DecidableEq

/-- One `findall` match added to the tally. -/
def addUsage (u : Usage) (t : Nat × Nat × Nat) : Usage :=
  ⟨u.prompt_tokens + t.1, u.completion_tokens + t.2.1, u.total_tokens + t.2.2⟩

/-- Embedding of `MetadataCollector.get_token_usage`: an absent file yields the zero tally;
otherwise every match of the usage pattern is summed componentwise. -/
def get_token_usage (log : Option (List Char)) : Usage :=
  match log with
  | none => ⟨0, 0, 0⟩
  | some content => (findRecords content).foldl addUsage ⟨0, 0, 0⟩

/-! ## `MetadataCollector.get_prompt_processing_time`

Timestamps `[YYYY-MM-DD HH:MM:SS]` are anchored at the start of the line and
then validated by `datetime.strptime` (a `ValueError` makes the line count as
untimestamped). -/

def isLeapYear (y : Nat) : Bool :=
  (y % 4 == 0 && y % 100 != 0) || y % 400 == 0

def daysInMonth (y m : Nat) : Nat :=
  if m = 2 then (if isLeapYear y then 29 else 28)
  else if m = 4 ∨ m = 6 ∨ m = 9 ∨ m = 11 then 30
  else 31

def daysBeforeMonth (y m : Nat) : Nat :=
  (match m with
   | 1 => 0 | 2 => 31 | 3 => 59 | 4 => 90 | 5 => 120 | 6 => 151
   | 7 => 181 | 8 => 212 | 9 => 243 | 10 => 273 | 11 => 304 | _ => 334)
  + (if 2 < m ∧ isLeapYear y then 1 else 0)

/-- Days from 0001-01-01 to the given proleptic-Gregorian date. -/
def rataDie (y m d : Nat) : Nat :=
  365 * (y - 1) + (y - 1) / 4 + (y - 1) / 400 - (y - 1) / 100
    + daysBeforeMonth y m + (d - 1)

/-- The instant as a second count; only differences of these are used. -/
def epochSeconds (y mo d h mi s : Nat) : Int :=
  ((rataDie y mo d * 86400 + h * 3600 + mi * 60 + s : Nat) : Int)

/-- The validation performed by `datetime.strptime`/`datetime.__init__`. -/
def validDateTime (y mo d h mi s : Nat) : Bool :=
  decide (1 ≤ y) && decide (1 ≤ mo) && decide (mo ≤ 12) &&
  decide (1 ≤ d) && decide (d ≤ daysInMonth y mo) &&
  decide (h ≤ 23) && decide (mi ≤ 59) && decide (s ≤ 59)

def twoDigits (a b : Char) : Nat := 10 * digitVal a + digitVal b

def fourDigits (a b c d : Char) : Nat :=
  1000 * digitVal a + 100 * digitVal b + 10 * digitVal c + digitVal d

/-- Matching `ts_pattern` and then `strptime`: a leading
`[dddd-dd-dd dd:dd:dd]` whose fields form a valid datetime. -/
def parseTs (l : List Char) : Option Int :=
  match l with
  | '[' :: y1 :: y2 :: y3 :: y4 :: '-' :: o1 :: o2 :: '-' :: d1 :: d2 :: ' ' ::
      h1 :: h2 :: ':' :: i1 :: i2 :: ':' :: s1 :: s2 :: ']' :: _ =>
    if isDigitC y1 && isDigitC y2 && isDigitC y3 && isDigitC y4 &&
       isDigitC o1 && isDigitC o2 && isDigitC d1 && isDigitC d2 &&
       isDigitC h1 && isDigitC h2 && isDigitC i1 && isDigitC i2 &&
       isDigitC s1 && isDigitC s2 then
      let y := fourDigits y1 y2 y3 y4
      let mo := twoDigits o1 o2
      let d := twoDigits d1 d2
      let h := twoDigits h1 h2
      let mi := twoDigits i1 i2
      let s := twoDigits s1 s2
      if validDateTime y mo d h mi s then some (epochSeconds y mo d h mi s)
      else none
    else none
  | _ => none

def markerChars : List Char := "Prompt processing progress".data

/-- Python's `"Prompt processing progress" in line`. -/
def hasMarker (l : List Char) : Bool := listContainsSub markerChars l

/-- The loop state of `get_prompt_processing_time`. -/
structure PPState where
  in_block : Bool
  block_start : Option Int
  last_ts : Option Int
  total : Int
deriving DecidableEq

def ppInit : PPState := ⟨false, none, none, 0⟩

/-- One line of the loop body. -/
def ppStep (st : PPState) (line : List Char) : PPState :=
  match parseTs line with
  | none => st
  | some t =>
    let st1 : PPState := { st with last_ts := some t }
    if hasMarker line then
      if st1.in_block then st1
      else { st1 with in_block := true, block_start := some t }
    else
      if st1.in_block then
        { st1 with
          in_block := false, block_start := none,
          total := st1.total + (match st1.block_start with
                                | some b => t - b
                                | none => 0) }
      else st1

/-- The fix-up after the loop: a block still open at end of file is closed
against the last timestamp seen anywhere. -/
def ppFinal (st : PPState) : Int :=
  match st.in_block, st.block_start, st.last_ts with
  | true, some b, some l => st.total + (l - b)
  | _, _, _ => st.total

def ppTimeFromLines (lines : List (List Char)) : Int :=
  ppFinal (lines.foldl ppStep ppInit)

/-- Embedding of `MetadataCollector.get_prompt_processing_time`: an absent file yields 0;
otherwise the readlines of the content are folded through the state machine. -/
def get_prompt_processing_time (log : Option (List Char)) : Int :=
  match log with
  | none => 0
  | some content => ppTimeFromLines (pyReadlines content)

/-! ## `AgentRunner._run_process`

The operating-system side of `subprocess.Popen` is passed in as data: either
the process launched and produced a stream of output lines and an exit code,
or the launch itself failed (`FileNotFoundError`, `PermissionError`, ...).
The function streams every line to the transcript file and then appends one
outcome annotation; there is no handler around `Popen`, so a launch error
propagates out of the `with` block after the (still empty) transcript file is
closed. -/

inductive LaunchOutcome where
  | ok (outputLines : List String) (exitCode : Int)
  | err (exc : String)

structure RunProcessResult where
  /-- Holds `some e` when an exception `e` propagates past `_run_process`. -/
  raised : Option String
  /-- The chunks written to `CHAT_SESSION.TXT`, in order. -/
  transcript : List String
deriving DecidableEq

def run_process : LaunchOutcome → RunProcessResult
  | .ok lines code =>
    { raised := none,
      transcript := lines ++
        [if code ≠ 0 then
           "\n[ERROR] Process exited with code " ++ toString code ++ "\n"
         else "\n[SUCCESS] Process exited cleanly.\n"] }
  | .err e => { raised := some e, transcript := [] }

/-! ## `AgentRunner.run` (control flow)

The phases of `run` as an event trace, parameterised by whether
`execute_agent` raises.  The `try`/`finally` around the invocation makes the
log-capture stop happen on both paths, before any exception leaves `run`. -/

inductive RunEvent where
  | setupWorkspace
  | configureAgent
  | startLogCapture
  | agentStart
  | agentDone
  | agentRaised
  | stopLogCapture
  | postRunScripts
  | generateReport
  | exceptionPropagated
deriving DecidableEq

def runTrace (agentFails : Bool) : List RunEvent :=
  [.setupWorkspace, .configureAgent, .startLogCapture, .agentStart] ++
    (if agentFails then [.agentRaised, .stopLogCapture, .exceptionPropagated]
     else [.agentDone, .stopLogCapture, .postRunScripts, .generateReport])

/-! ## `AgentRunner.setup_workspace`

The filesystem at the workspace path: `none` when nothing exists there,
`some .file` for a regular file, `some (.dir t)` for a directory with
contents `t`.  `shutil.rmtree` raises on a missing path (not reachable here,
`exists()` is checked first) and on a regular file; `mkdir(parents=True,
exist_ok=True)` creates the directory and its parents. -/

inductive FsEntry where
  | file
  | dir (children : List FsEntry)

structure WsState where
  parentExists : Bool
  entry : Option FsEntry

def rmtreeFs : Option FsEntry → Except String (Option FsEntry)
  | none => .error "FileNotFoundError"
  | some .file => .error "NotADirectoryError"
  | some (.dir _) => .ok none

def setup_workspace (st : WsState) : Except String WsState :=
  match st.entry with
  | some e =>
    match rmtreeFs (some e) with
    | .error m => .error m
    | .ok _ => .ok ⟨true, some (.dir [])⟩
  | none => .ok ⟨true, some (.dir [])⟩

/-! ## `AgentRunner.stop_server_logger`

State: `log_process` (set back to `None` by `stop_server_logger`) and the
`server_log_file` attribute, which `__init__` never creates — only a
successful `open` in `start_server_logger` does (`none` = attribute missing).
The returned list records the process-level actions taken, in order;
`terminate`, `wait` and `kill` never raise on a live-or-dead child and
`close` is idempotent, so the function is total. -/

structure CapState where
  log_process : Option Nat
  server_log_file_attr : Option Nat
deriving DecidableEq

inductive CapAction where
  | terminate (pid : Nat)
  | waitFor (pid : Nat)
  | kill (pid : Nat)
  | closeFile (fid : Nat)
deriving DecidableEq

def CapAction.isTermination : CapAction → Bool
  | .terminate _ => true
  | .waitFor _ => true
  | .kill _ => true
  | .closeFile _ => false

def stop_server_logger (st : CapState) (waitTimesOut : Bool) :
    CapState × List CapAction :=
  let pr : CapState × List CapAction :=
    match st.log_process with
    | none => (st, [])
    | some pid =>
      ({ st with log_process := none },
       [CapAction.terminate pid, CapAction.waitFor pid] ++
         (if waitTimesOut then [CapAction.kill pid] else []))
  match pr.1.server_log_file_attr with
  | none => pr
  | some fid => (pr.1, pr.2 ++ [CapAction.closeFile fid])

/-! ## Workspace-path derivation (`AgentRunner.__init__`) -/

/-- Computes `"".join(c for c in model_name if c.isalnum() or c in ('-', '_')).strip()`. -/
def safe_model_name (model : List Char) : List Char :=
  pyStrip (model.filter fun c => isAlnumC c || c == '-' || c == '_')

/-- Lookup `self.binary_map.get(agent_name, agent_name)` with `binary_map =
{"mistral": "vibe"}`. -/
def agent_binary (agent : List Char) : List Char :=
  if agent = "mistral".data then "vibe".data else agent

/-- The name of `work_dir` below `EVALS_DIR`:
`f"{binary}_{safe_model_name}_{prompt_stem}"`. -/
def work_dir_name (agent model stem : List Char) : List Char :=
  agent_binary agent ++ '_' :: safe_model_name model ++ '_' :: stem

/-! ## Canonical usage records and log assembly (for the algebraic claims) -/

/-- A nonempty all-digit group, as captured by `(\d+)`. -/
def goodDigits (d : List Char) : Bool := !d.isEmpty && d.all isDigitC

/-- Text free of the fragment `"usage"`; such text can neither contain nor
help form a match of the usage pattern. -/
def noUsage (l : List Char) : Bool := !listContainsSub quotedUsage l

/-- Record triple plus following separator: all three groups are nonempty
digit strings and the separator cannot take part in a usage match. -/
def goodPart (pr : (List Char × List Char × List Char) × List Char) : Bool :=
  goodDigits pr.1.1 && goodDigits pr.1.2.1 && goodDigits pr.1.2.2 && noUsage pr.2


/-- A well-formed usage record whose three groups are the digit strings
`dp`, `dc`, `dt`:
`"usage": \x7b"prompt_tokens": DP, "completion_tokens": DC, "total_tokens": DT\x7d`. -/
def mkRecordD (dp dc dt : List Char) : List Char :=
  usageLit ++ ' ' :: '\x7b' ::
    (ptokLit ++ ' ' ::
      (dp ++ ',' :: ' ' ::
        (ctokLit ++ ' ' ::
          (dc ++ ',' :: ' ' ::
            (ttokLit ++ ' ' ::
              (dt ++ ['\x7d']))))))

/-- A log built as `sep₀ ++ rec₁ ++ sep₁ ++ ... ++ rec_N ++ sep_N`:
interleave separator text with usage records. -/
def assembleLog : List Char → List ((List Char × List Char × List Char) × List Char) → List Char
  | s0, [] => s0
  | s0, (ds, sep) :: tl =>
    s0 ++ mkRecordD ds.1 ds.2.1 ds.2.2 ++ assembleLog sep tl

/-! ## Concrete logs used by the case claims -/

/-- The log of the spec's worked example, with the usage text exactly as the
claim gives it (no `"usage":` key before the braces). -/
def c2content : List Char :=
  ("[2026-01-18 18:10:43] Prompt processing progress\n[2026-01-18 18:10:46] done\n\x7b\"prompt_tokens\":10,\"completion_tokens\":5,\"total_tokens\":15\x7d").data

/-- The same log with the usage text written as an actual usage record. -/
def c2fixed : List Char :=
  ("[2026-01-18 18:10:43] Prompt processing progress\n[2026-01-18 18:10:46] done\n\"usage\": \x7b\"prompt_tokens\":10,\"completion_tokens\":5,\"total_tokens\":15\x7d").data

/-- A log with no timestamped line but one usage record. -/
def c3content : List Char :=
  ("\"usage\": \x7b\"prompt_tokens\": 1, \"completion_tokens\": 2, \"total_tokens\": 3\x7d\n").data

/-- A log whose block-closing line carries an earlier timestamp than the
block's start line. -/
def c10content : List Char :=
  ("[2026-01-18 18:10:46] Prompt processing progress\n[2026-01-18 18:10:43] done\n").data

/-- A log that ends while a marker block is still open. -/
def c4content : List Char :=
  ("[2026-01-18 18:10:43] Prompt processing progress\n").data

/-! ## Scanner lemmas -/

lemma isPrefixOf_self_append (p l : List Char) : p.isPrefixOf (p ++ l) = true := by
  rw [ List.isPrefixOf_iff_prefix]; exact List.prefix_append _ _

lemma expectLit_self_append (pat l : List Char) : expectLit pat (pat ++ l) = some l := by
  simp [expectLit, isPrefixOf_self_append, List.drop_left]

lemma expectLit_eq_some {pat l l' : List Char} (h : expectLit pat l = some l') :
    l = pat ++ l' := by
  unfold expectLit at h
  split at h
  · rename_i hp
    rw [ List.isPrefixOf_iff_prefix] at hp
    obtain ⟨t, rfl⟩ := hp
    simp only [Option.some.injEq] at h
    rw [List.drop_left] at h
    rw [h]
  · exact absurd h (by simp)

lemma skipWs_suffix (l : List Char) : ∃ w, l = w ++ skipWs l :=
  ⟨l.takeWhile isPyWs, (List.takeWhile_append_dropWhile isPyWs l).symm⟩

lemma skipWs_length (l : List Char) : (skipWs l).length ≤ l.length :=
  (List.dropWhile_sublist _).length_le

lemma parseDigits_eq_some {l : List Char} {pl : Nat × List Char}
    (h : parseDigits l = some pl) : ∃ d, l = d ++ pl.2 := by
  have hd : parseDigits l =
      if (l.takeWhile isDigitC).isEmpty then none
      else some (digitsVal (l.takeWhile isDigitC), l.dropWhile isDigitC) := rfl
  rw [hd] at h
  split at h
  · exact absurd h (by simp)
  · simp only [Option.some.injEq] at h
    exact ⟨l.takeWhile isDigitC, by
      rw [← h]
      exact (List.takeWhile_append_dropWhile isDigitC l).symm⟩

lemma matchRecord_nil : matchRecord [] = none := by decide

lemma matchRecord_length {l : List Char} {t : Nat × Nat × Nat} {rest : List Char}
    (h : matchRecord l = some (t, rest)) : rest.length < l.length := by
  simp only [matchRecord, Option.bind_eq_some, Option.map_eq_some'] at h
  obtain ⟨l1, h1, l2, h2, l3, h3, pl, hp, l5, h5, l6, h6, cl, hc, l8, h8, l9, h9,
    tl, ht, l11, h11, hfin⟩ := h
  have e1 := congrArg List.length (expectLit_eq_some h1)
  have e2 := congrArg List.length (expectLit_eq_some h2)
  have e3 := congrArg List.length (expectLit_eq_some h3)
  obtain ⟨dp, ep⟩ := parseDigits_eq_some hp
  have ep := congrArg List.length ep
  have e5 := congrArg List.length (expectLit_eq_some h5)
  have e6 := congrArg List.length (expectLit_eq_some h6)
  obtain ⟨dc, ec⟩ := parseDigits_eq_some hc
  have ec := congrArg List.length ec
  have e8 := congrArg List.length (expectLit_eq_some h8)
  have e9 := congrArg List.length (expectLit_eq_some h9)
  obtain ⟨dt, et⟩ := parseDigits_eq_some ht
  have et := congrArg List.length et
  have e11 := congrArg List.length (expectLit_eq_some h11)
  have s1 := skipWs_length l1
  have s2 := skipWs_length l2
  have s3 := skipWs_length l3
  have s5 := skipWs_length l5
  have s6 := skipWs_length l6
  have s8 := skipWs_length l8
  have s9 := skipWs_length l9
  have st := skipWs_length tl.2
  have hu : usageLit.length = 8 := rfl
  simp only [List.length_append] at e1 e2 e3 ep e5 e6 ec e8 e9 et e11
  injection hfin with hfa hfb
  subst hfb
  omega

lemma findRecordsAux_succ_eq (fuel : Nat) (l : List Char) :
    findRecordsAux (fuel + 1) l =
      match matchRecord l with
      | some (t, rest) => t :: findRecordsAux fuel rest
      | none =>
        match l with
        | [] => []
        | _ :: cs => findRecordsAux fuel cs := rfl

lemma findRecordsAux_succ_pos {l : List Char} {t : Nat × Nat × Nat}
    {rest : List Char} (fuel : Nat) (h : matchRecord l = some (t, rest)) :
    findRecordsAux (fuel + 1) l = t :: findRecordsAux fuel rest := by
  rw [findRecordsAux_succ_eq, h]

lemma findRecordsAux_succ_none_cons {c : Char} {cs : List Char} (fuel : Nat)
    (h : matchRecord (c :: cs) = none) :
    findRecordsAux (fuel + 1) (c :: cs) = findRecordsAux fuel cs := by
  rw [findRecordsAux_succ_eq, h]

lemma findRecordsAux_nil : ∀ fuel : Nat, findRecordsAux fuel [] = []
  | 0 => rfl
  | _ + 1 => by rw [findRecordsAux_succ_eq, matchRecord_nil]

lemma findRecordsAux_congr :
    ∀ f1 : Nat, ∀ l : List Char, ∀ f2 : Nat, l.length ≤ f1 → l.length ≤ f2 →
      findRecordsAux f1 l = findRecordsAux f2 l := by
  intro f1
  induction f1 with
  | zero =>
    intro l f2 h1 _
    have : l = [] := List.eq_nil_of_length_eq_zero (Nat.le_zero.mp h1)
    subst this
    rw [findRecordsAux_nil, findRecordsAux_nil]
  | succ g1 ih =>
    intro l f2 h1 h2
    cases f2 with
    | zero =>
      have : l = [] := List.eq_nil_of_length_eq_zero (Nat.le_zero.mp h2)
      subst this
      rw [findRecordsAux_nil, findRecordsAux_nil]
    | succ g2 =>
      cases hm : matchRecord l with
      | some pr =>
        obtain ⟨tr, rest⟩ := pr
        have hr := matchRecord_length hm
        rw [findRecordsAux_succ_pos g1 hm, findRecordsAux_succ_pos g2 hm,
          ih rest g2 (by omega) (by omega)]
      | none =>
        cases l with
        | nil => rw [findRecordsAux_nil, findRecordsAux_nil]
        | cons c cs =>
          rw [findRecordsAux_succ_none_cons g1 hm, findRecordsAux_succ_none_cons g2 hm]
          exact ih cs g2 (by simp at h1; omega) (by simp at h2; omega)

lemma findRecords_nil : findRecords [] = [] := rfl

lemma findRecords_pos {l : List Char} {t : Nat × Nat × Nat} {rest : List Char}
    (h : matchRecord l = some (t, rest)) : findRecords l = t :: findRecords rest := by
  have hlen := matchRecord_length h
  cases hl : l with
  | nil => subst hl; rw [matchRecord_nil] at h; exact absurd h (by simp)
  | cons c cs =>
    subst hl
    show findRecordsAux (cs.length + 1) (c :: cs) = _
    rw [findRecordsAux_succ_pos cs.length h]
    simp only [List.length_cons] at hlen
    rw [findRecordsAux_congr cs.length rest rest.length (by omega) (by omega)]
    rfl

lemma findRecords_step {c : Char} {cs : List Char}
    (h : matchRecord (c :: cs) = none) : findRecords (c :: cs) = findRecords cs := by
  show findRecordsAux (cs.length + 1) (c :: cs) = _
  rw [findRecordsAux_succ_none_cons cs.length h]
  rfl

lemma digit_not_ws {c : Char} (h : isDigitC c = true) : isPyWs c = false := by
  simp only [isDigitC, Bool.and_eq_true, decide_eq_true_eq] at h
  simp only [isPyWs, Bool.or_eq_false_iff, beq_eq_false_iff_ne, ne_eq]
  omega

lemma takeWhile_append_all {p : Char → Bool} {xs : List Char} (ys : List Char)
    (h : ∀ x ∈ xs, p x = true) :
    (xs ++ ys).takeWhile p = xs ++ ys.takeWhile p := by
  induction xs with
  | nil => simp
  | cons a t ih =>
    have ha : p a = true := h a (by simp)
    simp only [List.cons_append, List.takeWhile_cons, ha, if_true]
    rw [ih (fun x hx => h x (by simp [hx]))]

lemma dropWhile_append_all {p : Char → Bool} {xs : List Char} (ys : List Char)
    (h : ∀ x ∈ xs, p x = true) :
    (xs ++ ys).dropWhile p = ys.dropWhile p := by
  induction xs with
  | nil => simp
  | cons a t ih =>
    have ha : p a = true := h a (by simp)
    simp only [List.cons_append, List.dropWhile_cons, ha, if_true]
    exact ih (fun x hx => h x (by simp [hx]))

lemma takeWhile_cons_false {p : Char → Bool} {c : Char} (l : List Char)
    (h : p c = false) : (c :: l).takeWhile p = [] := by
  simp [List.takeWhile_cons, h]

lemma dropWhile_cons_false {p : Char → Bool} {c : Char} (l : List Char)
    (h : p c = false) : (c :: l).dropWhile p = c :: l := by
  simp [List.dropWhile_cons, h]

lemma parseDigits_spec {dp : List Char} {c : Char} {z : List Char}
    (hne : dp ≠ []) (hall : ∀ x ∈ dp, isDigitC x = true)
    (hc : isDigitC c = false) :
    parseDigits (dp ++ c :: z) = some (digitsVal dp, c :: z) := by
  have ht : (dp ++ c :: z).takeWhile isDigitC = dp := by
    rw [takeWhile_append_all _ hall, takeWhile_cons_false _ hc, List.append_nil]
  have hd : (dp ++ c :: z).dropWhile isDigitC = c :: z := by
    rw [dropWhile_append_all _ hall, dropWhile_cons_false _ hc]
  have he : parseDigits (dp ++ c :: z) =
      if ((dp ++ c :: z).takeWhile isDigitC).isEmpty then none
      else some (digitsVal ((dp ++ c :: z).takeWhile isDigitC),
        (dp ++ c :: z).dropWhile isDigitC) := rfl
  rw [he, ht, hd]
  cases dp with
  | nil => exact absurd rfl hne
  | cons a t => rfl

lemma skipWs_cons_ws {c : Char} (l : List Char) (h : isPyWs c = true) :
    skipWs (c :: l) = skipWs l := by
  simp [skipWs, List.dropWhile_cons, h]

lemma skipWs_cons_not {c : Char} (l : List Char) (h : isPyWs c = false) :
    skipWs (c :: l) = c :: l := by
  simp [skipWs, List.dropWhile_cons, h]

lemma skipWs_digit_head {d : Char} (l : List Char) (h : isDigitC d = true) :
    skipWs (d :: l) = d :: l :=
  skipWs_cons_not l (digit_not_ws h)

lemma expectLit_lbrace (X : List Char) : expectLit lbraceLit ('\x7b' :: X) = some X :=
  expectLit_self_append lbraceLit X

lemma expectLit_rbrace (X : List Char) : expectLit rbraceLit ('\x7d' :: X) = some X :=
  expectLit_self_append rbraceLit X

lemma expectLit_comma (X : List Char) : expectLit commaLit (',' :: X) = some X :=
  expectLit_self_append commaLit X

lemma skipWs_space (X : List Char) : skipWs (' ' :: X) = skipWs X :=
  skipWs_cons_ws X (by decide)

lemma skipWs_lbrace (X : List Char) : skipWs ('\x7b' :: X) = '\x7b' :: X :=
  skipWs_cons_not X (by decide)

lemma skipWs_rbrace (X : List Char) : skipWs ('\x7d' :: X) = '\x7d' :: X :=
  skipWs_cons_not X (by decide)

lemma skipWs_ptokApp (X : List Char) : skipWs (ptokLit ++ X) = ptokLit ++ X :=
  skipWs_cons_not _ (by decide)

lemma skipWs_ctokApp (X : List Char) : skipWs (ctokLit ++ X) = ctokLit ++ X :=
  skipWs_cons_not _ (by decide)

lemma skipWs_ttokApp (X : List Char) : skipWs (ttokLit ++ X) = ttokLit ++ X :=
  skipWs_cons_not _ (by decide)

lemma goodDigits_ne {d : List Char} (h : goodDigits d = true) : d ≠ [] := by
  simp only [goodDigits, Bool.and_eq_true, Bool.not_eq_true'] at h
  intro he
  subst he
  simp at h

lemma goodDigits_all {d : List Char} (h : goodDigits d = true) :
    ∀ x ∈ d, isDigitC x = true := by
  simp only [goodDigits, Bool.and_eq_true, List.all_eq_true] at h
  exact h.2

lemma matchRecord_mkRecordD {dp dc dt : List Char} (r : List Char)
    (hp : goodDigits dp = true) (hc : goodDigits dc = true)
    (ht : goodDigits dt = true) :
    matchRecord (mkRecordD dp dc dt ++ r) =
      some ((digitsVal dp, digitsVal dc, digitsVal dt), r) := by
  have ncomma : isDigitC ',' = false := by decide
  have hpne := goodDigits_ne hp
  have hcne := goodDigits_ne hc
  have htne := goodDigits_ne ht
  have hpall := goodDigits_all hp
  have hcall := goodDigits_all hc
  have htall := goodDigits_all ht
  obtain ⟨p0, dp', rfl⟩ : ∃ a l, dp = a :: l := by
    cases dp with
    | nil => exact absurd rfl hpne
    | cons a l => exact ⟨a, l, rfl⟩
  obtain ⟨c0, dc', rfl⟩ : ∃ a l, dc = a :: l := by
    cases dc with
    | nil => exact absurd rfl hcne
    | cons a l => exact ⟨a, l, rfl⟩
  obtain ⟨t0, dt', rfl⟩ : ∃ a l, dt = a :: l := by
    cases dt with
    | nil => exact absurd rfl htne
    | cons a l => exact ⟨a, l, rfl⟩
  have e0 : mkRecordD (p0 :: dp') (c0 :: dc') (t0 :: dt') ++ r =
      usageLit ++ (' ' :: '\x7b' ::
        (ptokLit ++ (' ' :: p0 ::
          (dp' ++ (',' :: ' ' ::
            (ctokLit ++ (' ' :: c0 ::
              (dc' ++ (',' :: ' ' ::
                (ttokLit ++ (' ' :: t0 ::
                  (dt' ++ ('\x7d' :: r))))))))))))) := by
    simp [mkRecordD, List.append_assoc]
  rw [matchRecord, e0, expectLit_self_append]
  rw [Option.some_bind]
  rw [skipWs_space, skipWs_lbrace, expectLit_lbrace, Option.some_bind]
  rw [skipWs_ptokApp, expectLit_self_append, Option.some_bind]
  rw [skipWs_space, skipWs_cons_not _ (digit_not_ws (hpall p0 (by simp)))]
  have pd1 : parseDigits (p0 :: (dp' ++ (',' :: ' ' ::
      (ctokLit ++ (' ' :: c0 :: (dc' ++ (',' :: ' ' ::
        (ttokLit ++ (' ' :: t0 :: (dt' ++ ('\x7d' :: r))))))))))) =
      some (digitsVal (p0 :: dp'), ',' :: ' ' ::
        (ctokLit ++ (' ' :: c0 :: (dc' ++ (',' :: ' ' ::
          (ttokLit ++ (' ' :: t0 :: (dt' ++ ('\x7d' :: r))))))))) := by
    have := @parseDigits_spec (p0 :: dp') ','
      (' ' :: (ctokLit ++ (' ' :: c0 :: (dc' ++ (',' :: ' ' ::
        (ttokLit ++ (' ' :: t0 :: (dt' ++ ('\x7d' :: r)))))))))
      hpne hpall ncomma
    simpa using this
  rw [pd1, Option.some_bind, expectLit_comma, Option.some_bind]
  rw [skipWs_space, skipWs_ctokApp, expectLit_self_append, Option.some_bind]
  rw [skipWs_space, skipWs_cons_not _ (digit_not_ws (hcall c0 (by simp)))]
  have pd2 : parseDigits (c0 :: (dc' ++ (',' :: ' ' ::
      (ttokLit ++ (' ' :: t0 :: (dt' ++ ('\x7d' :: r))))))) =
      some (digitsVal (c0 :: dc'), ',' :: ' ' ::
        (ttokLit ++ (' ' :: t0 :: (dt' ++ ('\x7d' :: r))))) := by
    have := @parseDigits_spec (c0 :: dc') ','
      (' ' :: (ttokLit ++ (' ' :: t0 :: (dt' ++ ('\x7d' :: r)))))
      hcne hcall ncomma
    simpa using this
  rw [pd2, Option.some_bind, expectLit_comma, Option.some_bind]
  rw [skipWs_space, skipWs_ttokApp, expectLit_self_append, Option.some_bind]
  rw [skipWs_space, skipWs_cons_not _ (digit_not_ws (htall t0 (by simp)))]
  have pd3 : parseDigits (t0 :: (dt' ++ ('\x7d' :: r))) =
      some (digitsVal (t0 :: dt'), '\x7d' :: r) := by
    have := @parseDigits_spec (t0 :: dt') '\x7d' r htne htall (by decide)
    simpa using this
  rw [pd3, Option.some_bind, skipWs_rbrace, expectLit_rbrace, Option.map_some']

lemma usageLit_chars :
    usageLit = '"' :: 'u' :: 's' :: 'a' :: 'g' :: 'e' :: '"' :: ':' :: [] := rfl

lemma matchRecord_none_of_no_usage_head {l : List Char}
    (h : usageLit.isPrefixOf l = false) : matchRecord l = none := by
  simp [matchRecord, expectLit, h]

lemma contains_of_prefix_drop {pat l : List Char} {i : Nat}
    (h : pat.isPrefixOf (l.drop i) = true) : listContainsSub pat l = true := by
  induction i generalizing l with
  | zero =>
    rw [List.drop_zero] at h
    cases l with
    | nil =>
      cases pat with
      | nil => rfl
      | cons a t => simp [List.isPrefixOf] at h
    | cons c t => simp [listContainsSub, h]
  | succ j ih =>
    cases l with
    | nil =>
      rw [List.drop_nil] at h
      cases pat with
      | nil => rfl
      | cons a t => simp [List.isPrefixOf] at h
    | cons c t =>
      have hh : pat.isPrefixOf (t.drop j) = true := by
        simpa [List.drop_succ_cons] using h
      simp [listContainsSub, ih hh]

lemma usage_boundary_mismatch {k : Nat} (hk1 : 1 ≤ k) (hk6 : k ≤ 6)
    (Z s : List Char) : ('"' :: 'u' :: Z : List Char) ≠ usageLit.drop k ++ s := by
  interval_cases k <;> simp [usageLit_chars]

lemma inertPos {sep rest : List Char} (hs : noUsage sep = true)
    (hr : rest = [] ∨ ∃ dp dc dt r', rest = mkRecordD dp dc dt ++ r') :
    ∀ i, i < sep.length → usageLit.isPrefixOf ((sep ++ rest).drop i) = false := by
  intro i hi
  by_contra hcon
  rw [Bool.not_eq_false] at hcon
  rw [List.drop_append_of_le_length (le_of_lt hi)] at hcon
  rw [ List.isPrefixOf_iff_prefix] at hcon
  obtain ⟨s, hs8⟩ := hcon
  have hulen : usageLit.length = 8 := rfl
  have hklen : (sep.drop i).length = sep.length - i := List.length_drop _ _
  by_cases hk : 7 ≤ (sep.drop i).length
  · have h7 := congrArg (List.take 7) hs8
    rw [List.take_append_of_le_length (by omega), List.take_append_of_le_length hk] at h7
    have hq : usageLit.take 7 = quotedUsage := rfl
    have hpre : quotedUsage.isPrefixOf (sep.drop i) = true := by
      rw [ List.isPrefixOf_iff_prefix, hq.symm, h7]
      exact List.take_prefix _ _
    have hcontains := contains_of_prefix_drop hpre
    simp only [noUsage, Bool.not_eq_true', hcontains] at hs
    exact absurd hs (by simp)
  · have hk6 : (sep.drop i).length ≤ 6 := by omega
    have hk1 : 1 ≤ (sep.drop i).length := by omega
    have hdrop := congrArg (List.drop (sep.drop i).length) hs8
    rw [List.drop_append_of_le_length (by omega), List.drop_left] at hdrop
    rcases hr with rfl | ⟨dp, dc, dt, r', rfl⟩
    · have := congrArg List.length hdrop
      simp only [List.length_append, List.length_drop, List.length_nil, hulen] at this
      omega
    · obtain ⟨Z, hZ⟩ : ∃ Z, mkRecordD dp dc dt ++ r' = '"' :: 'u' :: Z := ⟨_, rfl⟩
      rw [hZ] at hdrop
      exact usage_boundary_mismatch hk1 hk6 Z s hdrop.symm

lemma findRecords_append_inert {sep rest : List Char}
    (h : ∀ i, i < sep.length → usageLit.isPrefixOf ((sep ++ rest).drop i) = false) :
    findRecords (sep ++ rest) = findRecords rest := by
  induction sep with
  | nil => simp
  | cons c cs ih =>
    have h0 := h 0 (by simp)
    rw [List.drop_zero] at h0
    have hm : matchRecord ((c :: cs) ++ rest) = none :=
      matchRecord_none_of_no_usage_head h0
    rw [List.cons_append] at hm
    rw [List.cons_append, findRecords_step hm]
    exact ih (fun i hi => by
      have hnext := h (i + 1) (by simpa using Nat.succ_lt_succ hi)
      simpa [List.drop_succ_cons] using hnext)

lemma findRecords_noUsage {l : List Char} (h : noUsage l = true) :
    findRecords l = [] := by
  have hres := @findRecords_append_inert l [] (@inertPos l [] h (Or.inl rfl))
  simpa using hres

lemma findRecords_assembleLog :
    ∀ (parts : List ((List Char × List Char × List Char) × List Char))
      (s0 : List Char), noUsage s0 = true → parts.all goodPart = true →
      findRecords (assembleLog s0 parts) =
        parts.map fun pr => (digitsVal pr.1.1, digitsVal pr.1.2.1, digitsVal pr.1.2.2) := by
  intro parts
  induction parts with
  | nil =>
    intro s0 h0 _
    simpa [assembleLog] using findRecords_noUsage h0
  | cons pr tl ih =>
    intro s0 h0 hall
    obtain ⟨ds, sep⟩ := pr
    simp only [List.all_cons, Bool.and_eq_true, goodPart] at hall
    have hgp := hall.1.1.1.1
    have hgc := hall.1.1.1.2
    have hgt := hall.1.1.2
    have hsep := hall.1.2
    have htl := hall.2
    show findRecords (s0 ++ mkRecordD ds.1 ds.2.1 ds.2.2 ++ assembleLog sep tl) = _
    rw [List.append_assoc]
    rw [@findRecords_append_inert s0 (mkRecordD ds.1 ds.2.1 ds.2.2 ++ assembleLog sep tl)
      (@inertPos s0 _ h0 (Or.inr ⟨ds.1, ds.2.1, ds.2.2, assembleLog sep tl, rfl⟩))]
    rw [findRecords_pos (matchRecord_mkRecordD (assembleLog sep tl) hgp hgc hgt)]
    rw [ih sep hsep htl]
    rfl

lemma foldl_addUsage (recs : List (Nat × Nat × Nat)) :
    ∀ u : Usage, recs.foldl addUsage u =
      ⟨u.prompt_tokens + (recs.map fun t => t.1).sum,
       u.completion_tokens + (recs.map fun t => t.2.1).sum,
       u.total_tokens + (recs.map fun t => t.2.2).sum⟩ := by
  induction recs with
  | nil => intro u; simp
  | cons r tl ih =>
    intro u
    simp only [List.foldl_cons, ih, List.map_cons, List.sum_cons, addUsage]
    congr 1 <;> omega

/-! ## Interval-extraction lemmas -/

lemma ppStep_none {st : PPState} {l : List Char} (h : parseTs l = none) :
    ppStep st l = st := by
  simp [ppStep, h]

lemma foldl_no_ts {lines : List (List Char)}
    (h : ∀ l ∈ lines, parseTs l = none) :
    ∀ st : PPState, lines.foldl ppStep st = st := by
  induction lines with
  | nil => intro st; rfl
  | cons l ls ih =>
    intro st
    rw [List.foldl_cons, ppStep_none (h l (by simp))]
    exact ih (fun x hx => h x (by simp [hx])) st

lemma ppStep_some_last {st : PPState} {l : List Char} {t : Int}
    (h : parseTs l = some t) : (ppStep st l).last_ts = some t := by
  simp only [ppStep, h]
  split <;> (try split) <;> rfl

lemma ppStep_open {st : PPState} {l : List Char} {t : Int}
    (hp : parseTs l = some t) (hm : hasMarker l = true)
    (hib : st.in_block = false) :
    ppStep st l = { st with in_block := true, block_start := some t, last_ts := some t } := by
  simp [ppStep, hp, hm, hib]

lemma ppStep_marker_open {st : PPState} {l : List Char} {t : Int}
    (hp : parseTs l = some t) (hm : hasMarker l = true)
    (hib : st.in_block = true) :
    ppStep st l = { st with last_ts := some t } := by
  simp [ppStep, hp, hm, hib]

lemma ppStep_close {st : PPState} {l : List Char} {t : Int}
    (hp : parseTs l = some t) (hm : hasMarker l = false)
    (hib : st.in_block = true) :
    ppStep st l =
      { st with in_block := false, block_start := none, last_ts := some t,
                total := st.total +
                  (match st.block_start with | some b => t - b | none => 0) } := by
  simp [ppStep, hp, hm, hib]

lemma ppStep_plain {st : PPState} {l : List Char} {t : Int}
    (hp : parseTs l = some t) (hm : hasMarker l = false)
    (hib : st.in_block = false) :
    ppStep st l = { st with last_ts := some t } := by
  simp [ppStep, hp, hm, hib]

lemma ppStep_inv {st : PPState} {l : List Char}
    (h : st.in_block = true → st.block_start.isSome = true)
    (hb : (ppStep st l).in_block = true) :
    (ppStep st l).block_start.isSome = true := by
  cases hp : parseTs l with
  | none => rw [ppStep_none hp] at hb ⊢; exact h hb
  | some t =>
    by_cases hm : hasMarker l = true
    · by_cases hib : st.in_block = true
      · rw [ppStep_marker_open hp hm hib] at hb ⊢
        exact h hib
      · rw [Bool.not_eq_true] at hib
        rw [ppStep_open hp hm hib]
        rfl
    · rw [Bool.not_eq_true] at hm
      by_cases hib : st.in_block = true
      · rw [ppStep_close hp hm hib] at hb
        simp at hb
      · rw [Bool.not_eq_true] at hib
        rw [ppStep_plain hp hm hib] at hb ⊢
        exact h hb

lemma fold_inv {lines : List (List Char)} :
    ∀ st : PPState, (st.in_block = true → st.block_start.isSome = true) →
      ((lines.foldl ppStep st).in_block = true →
        (lines.foldl ppStep st).block_start.isSome = true) := by
  induction lines with
  | nil => intro st h; exact h
  | cons l ls ih =>
    intro st h
    rw [List.foldl_cons]
    exact ih (ppStep st l) (ppStep_inv h)

lemma ppStep_inv2 {st : PPState} {l : List Char}
    (h : st.in_block = true → st.last_ts.isSome = true)
    (hb : (ppStep st l).in_block = true) :
    (ppStep st l).last_ts.isSome = true := by
  cases hp : parseTs l with
  | none => rw [ppStep_none hp] at hb ⊢; exact h hb
  | some t => rw [ppStep_some_last hp]; rfl

lemma fold_inv2 {lines : List (List Char)} :
    ∀ st : PPState, (st.in_block = true → st.last_ts.isSome = true) →
      ((lines.foldl ppStep st).in_block = true →
        (lines.foldl ppStep st).last_ts.isSome = true) := by
  induction lines with
  | nil => intro st h; exact h
  | cons l ls ih =>
    intro st h
    rw [List.foldl_cons]
    exact ih (ppStep st l) (ppStep_inv2 h)

lemma fold_last_none {lines : List (List Char)} :
    ∀ st : PPState, (lines.filterMap parseTs).getLast? = none →
      (lines.foldl ppStep st).last_ts = st.last_ts := by
  induction lines with
  | nil => intro st _; rfl
  | cons l ls ih =>
    intro st h
    cases hp : parseTs l with
    | none =>
      rw [List.filterMap_cons_none hp] at h
      rw [List.foldl_cons, ppStep_none hp]
      exact ih st h
    | some t =>
      rw [List.filterMap_cons_some hp] at h
      simp [List.getLast?_cons] at h

lemma fold_last_some {lines : List (List Char)} :
    ∀ st : PPState, ∀ t : Int, (lines.filterMap parseTs).getLast? = some t →
      (lines.foldl ppStep st).last_ts = some t := by
  induction lines with
  | nil => intro st t h; simp at h
  | cons l ls ih =>
    intro st t h
    cases hp : parseTs l with
    | none =>
      rw [List.filterMap_cons_none hp] at h
      rw [List.foldl_cons, ppStep_none hp]
      exact ih st t h
    | some t0 =>
      rw [List.filterMap_cons_some hp] at h
      rw [List.getLast?_cons] at h
      simp only [Option.some.injEq] at h
      cases hX : (ls.filterMap parseTs).getLast? with
      | some t1 =>
        rw [hX] at h
        simp only [Option.getD_some] at h
        subst h
        rw [List.foldl_cons]
        exact ih (ppStep st l) t1 hX
      | none =>
        rw [hX] at h
        simp only [Option.getD_none] at h
        subst h
        rw [List.foldl_cons, fold_last_none (ppStep st l) hX]
        exact ppStep_some_last hp

/-- C1 (corrected): at the concrete launch failure `FileNotFoundError`,
`_run_process` does not return normally — the exception propagates — and the
transcript file stays empty, refuting the claim that all three outcomes
return normally with a non-empty transcript. -/
theorem C1_counterexample :
    (run_process (LaunchOutcome.err "FileNotFoundError")).raised =
      some "FileNotFoundError" ∧
    (run_process (LaunchOutcome.err "FileNotFoundError")).raised ≠ none ∧
    (run_process (LaunchOutcome.err "FileNotFoundError")).transcript = [] :=
  ⟨rfl, by simp [run_process], rfl⟩

/-- C1 (amended): for a launched process, exit code 0 annotates the transcript
with the success marker and any other exit code with that code, returning
normally with a non-empty transcript; a launch failure instead raises past
`_run_process`, leaving an empty transcript. -/
theorem C1_theorem :
    ∀ (lines : List String) (code : Int) (e : String),
      (run_process (LaunchOutcome.ok lines code)).raised = none ∧
      (run_process (LaunchOutcome.ok lines code)).transcript ≠ [] ∧
      (code = 0 → (run_process (LaunchOutcome.ok lines code)).transcript =
        lines ++ ["\n[SUCCESS] Process exited cleanly.\n"]) ∧
      (code ≠ 0 → (run_process (LaunchOutcome.ok lines code)).transcript =
        lines ++ ["\n[ERROR] Process exited with code " ++ toString code ++ "\n"]) ∧
      (run_process (LaunchOutcome.err e)).raised = some e ∧
      (run_process (LaunchOutcome.err e)).transcript = [] := by
  intro lines code e
  refine ⟨rfl, ?_, ?_, ?_, rfl, rfl⟩
  · simp [run_process]
  · intro h
    simp [run_process, h]
  · intro h
    simp [run_process, h]

/-- C1 witness: a process exiting with code 2 yields the annotated
transcript. -/
theorem C1_witness :
    (run_process (LaunchOutcome.ok ["hi"] 2)).transcript =
      ["hi", "\n[ERROR] Process exited with code 2\n"] := by
  have h := ( C1_theorem ["hi"] 2 "x").2.2.2.1 (by decide)
  rw [h]
  rfl

set_option maxRecDepth 100000 in
/-- C2 (corrected): on the claim's exact log — whose third piece of text lacks
the `"usage":` key the source's regex requires — the token tally is zero,
not 10/5/15; the duration claim of 3 seconds does hold. -/
theorem C2_counterexample :
    get_token_usage (some c2content) = ⟨0, 0, 0⟩ ∧
    (⟨0, 0, 0⟩ : Usage) ≠ ⟨10, 5, 15⟩ ∧
    get_prompt_processing_time (some c2content) = 3 := by
  refine ⟨by decide, by decide, by decide⟩

set_option maxRecDepth 100000 in
/-- C2 (amended): the log yields a prompt-processing duration of 3 seconds;
the tally 10/5/15 is produced only once the count text is preceded by the
`"usage":` key, and is 0/0/0 for the text exactly as given. -/
theorem C2_theorem :
    get_prompt_processing_time (some c2content) = 3 ∧
    get_prompt_processing_time (some c2fixed) = 3 ∧
    get_token_usage (some c2fixed) = ⟨10, 5, 15⟩ ∧
    get_token_usage (some c2content) = ⟨0, 0, 0⟩ := by
  refine ⟨by decide, by decide, by decide, by decide⟩

set_option maxRecDepth 100000 in
/-- C3 (corrected): a log with no timestamped line can still carry a usage
record; on this one the duration is 0 as claimed but the tally is 1/2/3,
refuting the claimed 0/0/0 tally. -/
theorem C3_counterexample :
    ((pyReadlines c3content).all fun l => (parseTs l).isNone) = true ∧
    get_prompt_processing_time (some c3content) = 0 ∧
    get_token_usage (some c3content) = ⟨1, 2, 3⟩ ∧
    (⟨1, 2, 3⟩ : Usage) ≠ ⟨0, 0, 0⟩ := by
  refine ⟨by decide, by decide, by decide, by decide⟩

/-- C3 (amended): for every log none of whose lines carries a parseable
timestamp the extracted duration is 0; the tally is 0/0/0 under the separate
condition that the log has no occurrence of `"usage"` (timestamps do not
influence the tally). -/
theorem C3_theorem :
    (∀ content : List Char, (∀ l ∈ pyReadlines content, parseTs l = none) →
      get_prompt_processing_time (some content) = 0) ∧
    (∀ content : List Char, noUsage content = true →
      get_token_usage (some content) = ⟨0, 0, 0⟩) := by
  constructor
  · intro content h
    show ppTimeFromLines (pyReadlines content) = 0
    rw [ppTimeFromLines, foldl_no_ts h]
    rfl
  · intro content h
    show (findRecords content).foldl addUsage ⟨0, 0, 0⟩ = ⟨0, 0, 0⟩
    rw [findRecords_noUsage h]
    rfl

/-- C3 witness: a plain text line has duration 0 and zero tally. -/
theorem C3_witness :
    get_prompt_processing_time (some ("hello world\n").data) = 0 ∧
    get_token_usage (some ("hello world\n").data) = ⟨0, 0, 0⟩ :=
  ⟨ C3_theorem.1 _ (by decide), C3_theorem.2 _ (by decide)⟩

/-- C4 (confirmed): whenever the scan of a log ends inside a marker block, the
result equals the total of the closed blocks plus (last timestamp seen
anywhere − block start), the last timestamp being read off the log
independently of the scan state; and a log whose only timestamped line is a
final marker line yields duration 0. -/
theorem C4_theorem :
    (∀ content : List Char,
      ((pyReadlines content).foldl ppStep ppInit).in_block = true →
        ((pyReadlines content).filterMap parseTs).getLast?.isSome = true ∧
        ((pyReadlines content).foldl ppStep ppInit).block_start.isSome = true ∧
        get_prompt_processing_time (some content) =
          ((pyReadlines content).foldl ppStep ppInit).total +
            ((((pyReadlines content).filterMap parseTs).getLast?).getD 0 -
              (((pyReadlines content).foldl ppStep ppInit).block_start).getD 0)) ∧
    (∀ (pre : List (List Char)) (mline : List Char),
      (∀ l ∈ pre, parseTs l = none) → (parseTs mline).isSome = true →
        hasMarker mline = true → ppTimeFromLines (pre ++ [mline]) = 0) := by
  constructor
  · intro content h
    have hbs := fold_inv ppInit (by intro hc; simp [ppInit] at hc) h
    have hls := fold_inv2 ppInit (by intro hc; simp [ppInit] at hc) h
    cases hL : ((pyReadlines content).filterMap parseTs).getLast? with
    | none =>
      exfalso
      have := fold_last_none ppInit hL
      rw [this] at hls
      simp [ppInit] at hls
    | some tL =>
      have hlast := fold_last_some ppInit tL hL
      obtain ⟨b, hb⟩ := Option.isSome_iff_exists.mp hbs
      refine ⟨rfl, hbs, ?_⟩
      show ppTimeFromLines (pyReadlines content) = _
      rw [ppTimeFromLines]
      simp [ppFinal, h, hb, hlast]
  · intro pre mline hpre hsome hm
    obtain ⟨t, ht⟩ := Option.isSome_iff_exists.mp hsome
    rw [ppTimeFromLines, List.foldl_append, foldl_no_ts hpre]
    rw [List.foldl_cons, List.foldl_nil]
    rw [ppStep_open ht hm (by rfl)]
    simp [ppFinal, ppInit]

set_option maxRecDepth 100000 in
/-- C4 witness: a log consisting of a single marker line ends in an open
block; the open block is closed against the last (only) timestamp, giving
duration 0, and prefixing untimestamped junk changes nothing. -/
theorem C4_witness :
    (((pyReadlines c4content).filterMap parseTs).getLast?.isSome = true ∧
     ((pyReadlines c4content).foldl ppStep ppInit).block_start.isSome = true ∧
     get_prompt_processing_time (some c4content) =
       ((pyReadlines c4content).foldl ppStep ppInit).total +
         ((((pyReadlines c4content).filterMap parseTs).getLast?).getD 0 -
           (((pyReadlines c4content).foldl ppStep ppInit).block_start).getD 0)) ∧
    ppTimeFromLines ([("junk\n").data] ++ [c4content]) = 0 :=
  ⟨ C4_theorem.1 c4content (by decide),
   C4_theorem.2 [("junk\n").data] c4content (by decide) (by decide) (by decide)⟩

/-- C5 (confirmed): a log assembled from N well-formed usage records with
arbitrary interleaved separator text (text free of `"usage"`) yields the
componentwise sums of the record values, whatever the separators are; and
the tally is invariant under permuting the records. -/
theorem C5_theorem :
    (∀ (s0 : List Char)
       (parts : List ((List Char × List Char × List Char) × List Char)),
       noUsage s0 = true → parts.all goodPart = true →
       get_token_usage (some (assembleLog s0 parts)) =
         ⟨(parts.map fun pr => digitsVal pr.1.1).sum,
          (parts.map fun pr => digitsVal pr.1.2.1).sum,
          (parts.map fun pr => digitsVal pr.1.2.2).sum⟩) ∧
    (∀ (s0 s0' : List Char)
       (parts parts' : List ((List Char × List Char × List Char) × List Char)),
       noUsage s0 = true → parts.all goodPart = true →
       noUsage s0' = true → parts'.all goodPart = true →
       List.Perm (parts.map fun pr => pr.1) (parts'.map fun pr => pr.1) →
       get_token_usage (some (assembleLog s0 parts)) =
         get_token_usage (some (assembleLog s0' parts'))) := by
  have main : ∀ (s0 : List Char)
      (parts : List ((List Char × List Char × List Char) × List Char)),
      noUsage s0 = true → parts.all goodPart = true →
      get_token_usage (some (assembleLog s0 parts)) =
        ⟨(parts.map fun pr => digitsVal pr.1.1).sum,
         (parts.map fun pr => digitsVal pr.1.2.1).sum,
         (parts.map fun pr => digitsVal pr.1.2.2).sum⟩ := by
    intro s0 parts h0 hall
    show (findRecords (assembleLog s0 parts)).foldl addUsage ⟨0, 0, 0⟩ = _
    rw [findRecords_assembleLog parts s0 h0 hall, foldl_addUsage]
    simp [List.map_map, Function.comp_def]
  refine ⟨main, ?_⟩
  intro s0 s0' parts parts' h0 hall h0' hall' hperm
  rw [main s0 parts h0 hall, main s0' parts' h0' hall']
  have e1 : ∀ (ps : List ((List Char × List Char × List Char) × List Char)),
      (ps.map fun pr => digitsVal pr.1.1) =
        (ps.map fun pr => pr.1).map fun d => digitsVal d.1 := by
    intro ps; rw [List.map_map]; rfl
  have e2 : ∀ (ps : List ((List Char × List Char × List Char) × List Char)),
      (ps.map fun pr => digitsVal pr.1.2.1) =
        (ps.map fun pr => pr.1).map fun d => digitsVal d.2.1 := by
    intro ps; rw [List.map_map]; rfl
  have e3 : ∀ (ps : List ((List Char × List Char × List Char) × List Char)),
      (ps.map fun pr => digitsVal pr.1.2.2) =
        (ps.map fun pr => pr.1).map fun d => digitsVal d.2.2 := by
    intro ps; rw [List.map_map]; rfl
  rw [e1, e2, e3, e1, e2, e3]
  rw [(hperm.map fun d => digitsVal d.1).sum_eq,
    (hperm.map fun d => digitsVal d.2.1).sum_eq,
    (hperm.map fun d => digitsVal d.2.2).sum_eq]

set_option maxRecDepth 100000 in
/-- C5 witness: two records (1,2,3) and (10,20,30) with interleaved plain
text sum to 11/22/33. -/
theorem C5_witness :
    get_token_usage (some (assembleLog ("log start\n").data
      [(("1".data, "2".data, "3".data), (" mid line\n").data),
       (("10".data, "20".data, "30".data), (" end\n").data)])) =
      ⟨11, 22, 33⟩ := by
  have h := C5_theorem.1 ("log start\n").data
    [(("1".data, "2".data, "3".data), (" mid line\n").data),
     (("10".data, "20".data, "30".data), (" end\n").data)]
    (by decide) (by decide)
  rw [h]
  decide

/-- C6 (confirmed): in both executions of `run` — agent completing or raising
— log capture starts strictly before the agent invocation and stops strictly
after it completes; on the raising path capture is stopped before the
exception propagates out of `run`. -/
theorem C6_theorem :
    ((runTrace false).indexOf RunEvent.startLogCapture <
        (runTrace false).indexOf RunEvent.agentStart ∧
      (runTrace false).indexOf RunEvent.agentDone <
        (runTrace false).indexOf RunEvent.stopLogCapture ∧
      RunEvent.startLogCapture ∈ runTrace false ∧
      RunEvent.agentStart ∈ runTrace false ∧
      RunEvent.agentDone ∈ runTrace false ∧
      RunEvent.stopLogCapture ∈ runTrace false) ∧
    ((runTrace true).indexOf RunEvent.startLogCapture <
        (runTrace true).indexOf RunEvent.agentStart ∧
      (runTrace true).indexOf RunEvent.agentRaised <
        (runTrace true).indexOf RunEvent.stopLogCapture ∧
      (runTrace true).indexOf RunEvent.stopLogCapture <
        (runTrace true).indexOf RunEvent.exceptionPropagated ∧
      RunEvent.stopLogCapture ∈ runTrace true ∧
      RunEvent.agentRaised ∈ runTrace true ∧
      RunEvent.exceptionPropagated ∈ runTrace true) := by
  decide

/-- C7 (confirmed): on any state in which the workspace path is absent or a
directory, `setup_workspace` succeeds and leaves a fresh empty directory
(parents created); calling it again succeeds again — no error although the
path now exists — and leaves an empty directory again. -/
theorem C7_theorem :
    ∀ st : WsState, st.entry ≠ some FsEntry.file →
      setup_workspace st = Except.ok ⟨true, some (FsEntry.dir [])⟩ ∧
      setup_workspace ⟨true, some (FsEntry.dir [])⟩ =
        Except.ok ⟨true, some (FsEntry.dir [])⟩ := by
  intro st h
  refine ⟨?_, rfl⟩
  obtain ⟨p, e⟩ := st
  cases e with
  | none => rfl
  | some f =>
    cases f with
    | file => exact absurd rfl h
    | dir t => rfl

/-- C7 witness: starting from nothing at the path, two consecutive calls both
produce the fresh empty directory. -/
theorem C7_witness :
    setup_workspace ⟨false, none⟩ = Except.ok ⟨true, some (FsEntry.dir [])⟩ ∧
    setup_workspace ⟨true, some (FsEntry.dir [])⟩ =
      Except.ok ⟨true, some (FsEntry.dir [])⟩ :=
  C7_theorem ⟨false, none⟩ (by simp)

/-- C8 (confirmed): `stop_server_logger` is total in the model; a second call
right after a first performs no termination action (the handle was reset to
`None`), and calling it when the logger was never started, or only the output
file was opened, performs no process action at all (at most the idempotent
file close). -/
theorem C8_theorem :
    ∀ (st : CapState) (b b' : Bool),
      ((stop_server_logger (stop_server_logger st b).1 b').2.all
        fun a => !a.isTermination) = true ∧
      stop_server_logger ⟨none, none⟩ b = (⟨none, none⟩, []) ∧
      (∀ fid : Nat, stop_server_logger ⟨none, some fid⟩ b =
        (⟨none, some fid⟩, [CapAction.closeFile fid])) := by
  intro st b b'
  refine ⟨?_, rfl, fun fid => rfl⟩
  obtain ⟨lp, fa⟩ := st
  cases lp <;> cases fa <;> rfl

/-- C9 (confirmed): the workspace-name derivation is not injective in the
model identifier — `foo.bar` and `foobar` differ only in a character that is
neither alphanumeric nor `-` nor `_`, yet they derive the same `work_dir`
name for the same agent and prompt. -/
theorem C9_theorem :
    ("foo.bar").data ≠ ("foobar").data ∧
    work_dir_name ("vibe").data ("foo.bar").data ("fib_prompt").data =
      work_dir_name ("vibe").data ("foobar").data ("fib_prompt").data := by
  decide

set_option maxRecDepth 100000 in
/-- C10 (confirmed): on a log whose block-closing line carries an earlier
timestamp than the block's start line the cumulative duration is −3, which is
strictly negative — intervals are summed as end minus start with no
clamping. -/
theorem C10_theorem :
    get_prompt_processing_time (some c10content) = -3 ∧
    get_prompt_processing_time (some c10content) < 0 := by
  refine ⟨by decide, by decide⟩
